import Mathlib

/-!
Verification development for the SCR news-recommendation backend.

The definitions below are a shallow embedding of the Python sources under
`backend/modelAPI/`: `recommendation.py` (the `UserPreferences`, `Article`
and `RecommendationSystem` classes), `news_fetcher.py` (the RSS aggregation
and headline paths) and `category_mappings.py` / `main.py` (label handling).

Modelling conventions, used consistently:
* machine time instants (`datetime` values) are integers counting seconds;
  `timedelta.days` is floor division by 86400;
* Python `float` quantities that claims compare exactly (confidences,
  weights, scores) are rationals `ℚ`; the preference values produced with
  `np.exp` live in `ℝ` with `Real.exp`;
* the TF-IDF vector attached to an article is modelled by its presence only
  (`vec : Bool`): no claim below depends on the numeric contents of a
  vector, and the composite relevance score of `get_recommendations`
  (cosine · time decay · category weight · source factor) is abstracted as
  an explicit `score : Article → ℚ` parameter — the selection logic around
  it is embedded exactly;
* Python `set`s whose contents and size matter are lists with guarded
  insertion, Python `dict`s are association lists in insertion order with
  first-match lookup and position-preserving overwrite (the semantics of
  CPython 3.7+ dicts);
* `random.shuffle` results are passed in as an explicit list together with
  a permutation hypothesis, so theorems quantify over every possible
  shuffle outcome and counterexamples pick one admissible outcome.
-/

namespace SCR

/-- Article (recommendation.py, class `Article`): metadata plus the parsed
`published_datetime`, modelled as an integer instant. `vec` records whether
`self.vector` is not `None`. -/
structure Article where
  article_id : String
  title : String
  content : String
  category : String
  subcategory : String
  confidence : ℚ
  source : String
  url : String
  published : ℤ
  vec : Bool
deriving DecidableEq

/-- Ascending order on `published_datetime`, the sort key used by the
eviction step of `add_article`. -/
def pubAsc (a b : Article) : Prop := a.published ≤ b.published

/-- Descending order on `published_datetime.timestamp()`, the (stable,
`reverse=True`) sort used by `_get_diverse_recent_articles`. -/
def pubDesc (a b : Article) : Prop := b.published ≤ a.published

instance : DecidableRel pubAsc := fun a b => inferInstanceAs (Decidable (a.published ≤ b.published))

instance : DecidableRel pubDesc := fun a b => inferInstanceAs (Decidable (b.published ≤ a.published))

instance : IsTotal Article pubAsc := ⟨fun a b => Int.le_total a.published b.published⟩

instance : IsTrans Article pubAsc := ⟨fun _ _ _ h1 h2 => le_trans h1 h2⟩

instance : IsTotal Article pubDesc := ⟨fun a b => Int.le_total b.published a.published⟩

instance : IsTrans Article pubDesc := ⟨fun _ _ _ h1 h2 => le_trans h2 h1⟩

/-- First-match lookup in an association list (Python `dict.__getitem__` /
`dict.get`; keys are unique in every list built below). -/
def lookupA {β : Type} : List (String × β) → String → Option β
  | [], _ => none
  | (k, v) :: rest, key => if k = key then some v else lookupA rest key

/-! ### UserPreferences (recommendation.py lines 21-88) -/

/-- Per-category aggregate held in `UserPreferences.preferences`
(the unused `"categories"` sub-dict of the source is omitted: it is
initialised by the defaultdict but never read or written). -/
structure PrefData where
  count : ℕ
  total_confidence : ℚ
  last_interaction : Option ℤ
deriving DecidableEq

/-- State of one `UserPreferences` object. -/
structure UserPreferences where
  preferences : List (String × PrefData)
  read_articles : List String
  category_weights : List (String × ℚ)
deriving DecidableEq

/-- A freshly constructed `UserPreferences()`. -/
def initPrefs : UserPreferences := ⟨[], [], []⟩

/-- The defaultdict access plus the three `+=`/assignment updates of
`update_preferences` on `self.preferences[category]`. -/
def bumpPref : List (String × PrefData) → String → ℚ → ℤ → List (String × PrefData)
  | [], cat, conf, now => [(cat, ⟨1, conf, some now⟩)]
  | (k, d) :: rest, cat, conf, now =>
    if k = cat then (k, ⟨d.count + 1, d.total_confidence + conf, some now⟩) :: rest
    else (k, d) :: bumpPref rest cat conf now

/-- Python `sum(pref["count"] for pref in self.preferences.values())`. -/
def totalInteractions (prefs : List (String × PrefData)) : ℕ :=
  (prefs.map (fun p => p.2.count)).sum

/-- `UserPreferences.update_preferences` (lines 37-59).  `now` is the
instant supplied by `datetime.now(timezone.utc)`. -/
def update_preferences (s : UserPreferences) (category : String) (confidence : ℚ)
    (article_id : String) (now : ℤ) : UserPreferences :=
  if article_id ∈ s.read_articles then s
  else
    let prefs := bumpPref s.preferences category confidence now
    let total := totalInteractions prefs
    { preferences := prefs
      read_articles := s.read_articles ++ [article_id]
      category_weights :=
        if 0 < total then prefs.map (fun p => (p.1, (p.2.count : ℚ) / (total : ℚ)))
        else s.category_weights }

/-- Python `(datetime.now(utc) - last_interaction).days` (`timedelta.days`
floors), with the source's `None`-fallback `datetime.now` giving zero days. -/
def daysBetween (last : Option ℤ) (now : ℤ) : ℤ :=
  match last with
  | none => 0
  | some t => (now - t).fdiv 86400

/-- The preference score assigned per category by
`get_average_preferences`: `base_preference * time_decay *
category_weights.get(category, 1.0)` with `time_decay = exp(-0.1 * days)`. -/
noncomputable def prefValue (s : UserPreferences) (now : ℤ) (p : String × PrefData) : ℝ :=
  ((p.2.total_confidence : ℝ) / (p.2.count : ℝ)) *
    Real.exp (-(1 / 10) * (daysBetween p.2.last_interaction now : ℝ)) *
    (((lookupA s.category_weights p.1).getD 1 : ℚ) : ℝ)

/-- `UserPreferences.get_average_preferences` (lines 64-88): every
category with positive count is mapped to its `prefValue`. -/
noncomputable def get_average_preferences (s : UserPreferences) (now : ℤ) :
    List (String × ℝ) :=
  s.preferences.filterMap (fun p =>
    if 0 < p.2.count then some (p.1, prefValue s now p) else none)

/-- One recorded interaction: arguments of an `update_preferences` call. -/
structure PrefEvent where
  category : String
  confidence : ℚ
  article_id : String
  time : ℤ
deriving DecidableEq

/-- Replay a sequence of `update_preferences` calls on a fresh tracker. -/
def applyUserUpdates (events : List PrefEvent) : UserPreferences :=
  events.foldl (fun s e => update_preferences s e.category e.confidence e.article_id e.time)
    initPrefs

/-! ### RecommendationSystem (recommendation.py lines 117-420) -/

/-- State of a `RecommendationSystem`: the article dict (values in
insertion order, keys unique), the `article_ids` list, the all-time
`source_diversity` counters, the per-user trackers, and whether
`self.article_vectors` is set (not `None`). -/
structure RecommendationSystem where
  articles : List Article
  article_ids : List String
  source_diversity : List (String × ℕ)
  user_preferences : List (String × UserPreferences)
  has_vectors : Bool
deriving DecidableEq

/-- A freshly constructed `RecommendationSystem()`. -/
def initSystem : RecommendationSystem := ⟨[], [], [], [], false⟩

/-- Python dict assignment `self.articles[article.article_id] = article`:
overwrite in place when the key exists, append otherwise. -/
def insertDict : List Article → Article → List Article
  | [], a => [a]
  | b :: rest, a =>
    if b.article_id = a.article_id then a :: rest else b :: insertDict rest a

/-- `self.source_diversity[article.source] += 1` on a `defaultdict(int)`. -/
def bumpSource : List (String × ℕ) → String → List (String × ℕ)
  | [], src => [(src, 1)]
  | (k, n) :: rest, src =>
    if k = src then (k, n + 1) :: rest else (k, n) :: bumpSource rest src

/-- Read access `self.source_diversity[s]` (`defaultdict(int)`: missing
keys read as 0). -/
def sourceCount (sd : List (String × ℕ)) (src : String) : ℕ :=
  (lookupA sd src).getD 0

/-- The document built by `_update_vectors` for one article:
`f"{title} {category} {subcategory or ''} {content}"`. -/
def docText (a : Article) : String :=
  a.title ++ " " ++ a.category ++ " " ++ a.subcategory ++ " " ++ a.content

/-- Python `not doc.strip()`: the document contains no non-space character
(the source strips whitespace; the documents built here only ever
introduce plain spaces). -/
def isBlank (s : String) : Bool := s.data.all (fun c => c = ' ')

/-- `RecommendationSystem._update_vectors` (lines 188-244), fitting assumed
to succeed: with no articles or no non-blank document the method returns
early and `article_vectors` stays as it was; otherwise every article with
a non-blank document receives a vector and `article_vectors` is set. -/
def update_vectors (sys : RecommendationSystem) : RecommendationSystem :=
  if sys.articles = [] then sys
  else if sys.articles.all (fun a => isBlank (docText a)) then sys
  else
    { sys with
      articles := sys.articles.map (fun a =>
        if isBlank (docText a) then a else { a with vec := true })
      has_vectors := true }

/-- The eviction batch of `add_article`: the 100 oldest-by-`published_datetime`
articles of the store (`sorted(...)[:100]`, stable sort). -/
def oldestBatch (l : List Article) : List Article :=
  (List.insertionSort pubAsc l).take 100

/-- The store after the eviction loop `self.articles.pop(...)` removed the
batch: keys of the batch are deleted from the dict. -/
def evictRemainder (l : List Article) : List Article :=
  l.filter (fun a => decide (a.article_id ∉ (oldestBatch l).map Article.article_id))

/-- Python `list.remove`: drop the first occurrence. -/
def removeFirst : List String → String → List String
  | [], _ => []
  | x :: rest, y => if x = y then rest else x :: removeFirst rest y

/-- The eviction loop's `self.article_ids.remove(old_article.article_id)`. -/
def removeIds (ids : List String) (olds : List Article) : List String :=
  olds.foldl (fun acc a => removeFirst acc a.article_id) ids

/-- `RecommendationSystem.add_article` (lines 135-161): evict the oldest
100 articles when the store holds at least 1000, insert the new article,
bump `source_diversity`, and refresh the vectors. -/
def add_article (sys : RecommendationSystem) (a : Article) : RecommendationSystem :=
  let sys1 :=
    if 1000 ≤ sys.articles.length then
      { sys with
        articles := evictRemainder sys.articles
        article_ids := removeIds sys.article_ids (oldestBatch sys.articles) }
    else sys
  update_vectors
    { sys1 with
      articles := insertDict sys1.articles a
      article_ids := sys1.article_ids ++ [a.article_id]
      source_diversity := bumpSource sys1.source_diversity a.source }

/-- Replay a sequence of `add_article` calls on a fresh system. -/
def applyAdds (articles : List Article) : RecommendationSystem :=
  articles.foldl add_article initSystem

/-- defaultdict access `self.user_preferences[user_id]`, mutating variant:
update the tracker of `uid` (creating it when absent). -/
def updateUser :
    List (String × UserPreferences) → String → (UserPreferences → UserPreferences) →
      List (String × UserPreferences)
  | [], uid, f => [(uid, f initPrefs)]
  | (k, u) :: rest, uid, f =>
    if k = uid then (k, f u) :: rest else (k, u) :: updateUser rest uid f

/-- `RecommendationSystem.update_user_preferences` (lines 246-258). -/
def update_user_preferences (sys : RecommendationSystem) (uid category : String)
    (confidence : ℚ) (article_id : String) (now : ℤ) : RecommendationSystem :=
  { sys with
    user_preferences := updateUser sys.user_preferences uid
      (fun u => update_preferences u category confidence article_id now) }

/-- Read access to `self.user_preferences[user_id]` (a fresh tracker when
the user is unknown, as the defaultdict would create). -/
def userOf (sys : RecommendationSystem) (uid : String) : UserPreferences :=
  (lookupA sys.user_preferences uid).getD initPrefs

/-- Python `seen_sources.add(s)` on a set modelled as a duplicate-free
list: size and membership agree with the set. -/
def insertSource (s : String) (seen : List String) : List String :=
  if s ∈ seen then seen else s :: seen

/-- The greedy source-aware selection loop shared by
`_get_diverse_recent_articles` (lines 406-413) and the tail of
`get_recommendations` (lines 371-378): stop at `num` picks; skip an
article exactly when its source was seen before and fewer than
`num // 2` distinct sources have been selected. -/
def diversePick (num : ℕ) : List Article → ℕ → List String → List Article
  | [], _, _ => []
  | a :: rest, cnt, seen =>
    if num ≤ cnt then []
    else if a.source ∈ seen ∧ seen.length < num / 2 then
      diversePick num rest cnt seen
    else a :: diversePick num rest (cnt + 1) (insertSource a.source seen)

/-- `RecommendationSystem._get_diverse_recent_articles` (lines 387-420):
all stored articles, stably sorted by `published_datetime` descending,
then the greedy selection. -/
def get_diverse_recent_articles (sys : RecommendationSystem) (num : ℕ) : List Article :=
  diversePick num (List.insertionSort pubDesc sys.articles) 0 []

/-- Descending order on the composite score, the `reverse=True` stable
sort of `article_scores` in `get_recommendations`. -/
def scoreDesc (p q : Article × ℚ) : Prop := q.2 ≤ p.2

instance : DecidableRel scoreDesc := fun p q => inferInstanceAs (Decidable (q.2 ≤ p.2))

instance : IsTotal (Article × ℚ) scoreDesc := ⟨fun p q => le_total q.2 p.2⟩

instance : IsTrans (Article × ℚ) scoreDesc := ⟨fun _ _ _ h1 h2 => le_trans h2 h1⟩

/-- `RecommendationSystem.get_recommendations` (lines 260-385).  The
numeric composite score of lines 335-356 is abstracted as `score`; the
branch structure, the read/vector filters, the stable sort by score and
the greedy source-aware selection follow the source line by line. -/
def get_recommendations (sys : RecommendationSystem) (score : Article → ℚ)
    (uid : String) (num : ℕ) : List Article :=
  if sys.articles = [] then []
  else if sys.has_vectors = false then get_diverse_recent_articles sys num
  else
    let user := userOf sys uid
    if user.read_articles = [] then get_diverse_recent_articles sys num
    else if sys.articles.filter
        (fun a => decide (a.article_id ∈ user.read_articles) && a.vec) = [] then
      get_diverse_recent_articles sys num
    else
      let scored := (sys.articles.filter
        (fun a => decide (a.article_id ∉ user.read_articles) && a.vec)).map
          (fun a => (a, score a))
      if scored = [] then get_diverse_recent_articles sys num
      else diversePick num ((List.insertionSort scoreDesc scored).map Prod.fst) 0 []

/-- The diversity constraint the greedy selection actually maintains,
read off a produced list: each successive article either brings a source
not seen before it, or is taken at a moment when at least `num // 2`
distinct sources had already been selected. -/
def GreedyOkFrom (num : ℕ) : List String → List Article → Prop
  | _, [] => True
  | seen, a :: rest =>
    (a.source ∉ seen ∨ num / 2 ≤ seen.length) ∧
      GreedyOkFrom num (insertSource a.source seen) rest

/-! ### NewsFetcher (news_fetcher.py) -/

/-- A normalized RSS entry as consumed by the feed loops: `summary` is the
content after the source's `summary` / `content[0].value` resolution. -/
structure Entry where
  title : String
  link : String
  summary : String
  published : String
  source : String
deriving DecidableEq

/-- The duck-typed article dict produced by the fetch paths. -/
structure FeedArticle where
  article_id : String
  title : String
  content : String
  source : String
  url : String
  published_at : String
  image_url : Option String
  category : String
deriving DecidableEq

/-- The entry loop body of `_fetch_articles_from_rss.fetch_feed` (lines
546-586): skip entries without title or link, emit an article only when
title, url and content are all non-empty.  The hash suffix of the
generated `article_id` is elided (no claim depends on it) and the image
extraction yields `none`. -/
def entryToArticle (category : String) (e : Entry) : Option FeedArticle :=
  if e.title = "" ∨ e.link = "" then none
  else if e.summary = "" then none
  else some ⟨e.source ++ "-" ++ e.title, e.title, e.summary, e.source, e.link,
    e.published, none, category⟩

/-- One feed's contribution in `_fetch_articles_from_rss`: only the first
3 entries are processed, with no URL deduplication. -/
def feedArticlesRss (category : String) (entries : List Entry) : List FeedArticle :=
  (entries.take 3).filterMap (entryToArticle category)

/-- The flattening of all per-feed results (lines 592-600). -/
def rssPool (category : String) (feeds : List (List Entry)) : List FeedArticle :=
  (feeds.map (feedArticlesRss category)).flatten

/-- Result of `_extract_article_content_async`: `none` models a task that
raised (timeout/cancellation) before delivering a record; a delivered
record with empty `content` models the extractor's graceful-failure
return. -/
structure Extracted where
  title : String
  content : String
  image_url : Option String
  published_at : String
deriving DecidableEq

/-- `process_article` of `_fetch_articles_from_rss` (lines 610-622, and
identically lines 1156-1168 of `fetch_top_headlines`): replace the content
only when the extraction produced strictly more characters, take the
extracted image when present, and return the article unchanged on any
extraction failure. -/
def process_article (extractF : String → Option Extracted) (a : FeedArticle) :
    FeedArticle :=
  match extractF a.url with
  | none => a
  | some ex =>
    let a1 := if ex.content ≠ "" ∧ a.content.length < ex.content.length
      then { a with content := ex.content } else a
    match ex.image_url with
    | some img => { a1 with image_url := some img }
    | none => a1

/-- The tail of `_fetch_articles_from_rss` (lines 602-629): the shuffled
pool (passed in as `shuffled`, an arbitrary permutation of the flattened
pool) truncated to `page_size`, each selected article enriched by
`process_article`. -/
def fetch_articles_from_rss (shuffled : List FeedArticle) (page_size : ℕ)
    (extractF : String → Option Extracted) : List FeedArticle :=
  (shuffled.take page_size).map (process_article extractF)

/-- `NewsFetcher._extract_articles_parallel_async` (lines 242-274): tasks
are created only for articles with a URL; an article is kept only when its
extraction delivered non-empty content, in which case `article.update(...)`
overwrites title, content, image and date unconditionally. -/
def extract_articles_parallel (extractF : String → Option Extracted)
    (articles : List FeedArticle) : List FeedArticle :=
  (articles.filter (fun a => a.url ≠ "")).filterMap (fun a =>
    match extractF a.url with
    | none => none
    | some ex =>
      if ex.content = "" then none
      else some { a with
        title := ex.title
        content := ex.content
        image_url := ex.image_url
        published_at := ex.published_at })

/-- Article record built by the headline feed loop (line 1125-1135). -/
def mkHeadline (e : Entry) : FeedArticle :=
  ⟨e.source ++ "-" ++ e.title, e.title, e.summary, e.source, e.link,
    e.published, none, "general"⟩

/-- The entry loop of `fetch_top_headlines.fetch_feed` (lines 1101-1136)
threading the shared `seen_urls` set: an entry is skipped when its URL is
empty or already seen, its URL is marked seen before the title/content
check, and it is emitted only when title and content are non-empty. -/
def processEntriesTH : List Entry → List String → List FeedArticle × List String
  | [], seen => ([], seen)
  | e :: es, seen =>
    if e.link = "" ∨ e.link ∈ seen then processEntriesTH es seen
    else if e.title ≠ "" ∧ e.summary ≠ "" then
      (mkHeadline e :: (processEntriesTH es (e.link :: seen)).1,
        (processEntriesTH es (e.link :: seen)).2)
    else processEntriesTH es (e.link :: seen)

/-- All feeds of `fetch_top_headlines` processed against the shared
`seen_urls` set, first three entries per feed, results concatenated
(lines 1141-1153); the feed list is given in completion order. -/
def collectHeadlines : List (List Entry) → List String → List FeedArticle
  | [], _ => []
  | f :: fs, seen =>
    (processEntriesTH (f.take 3) seen).1 ++
      collectHeadlines fs (processEntriesTH (f.take 3) seen).2

/-- The tail of `fetch_top_headlines` (lines 1170-1193): after content
enrichment, the sort-then-shuffle (jointly an arbitrary permutation,
passed in as `shuffled`) and the truncation to `page_size`. -/
def fetch_top_headlines (shuffled : List FeedArticle) (page_size : ℕ) :
    List FeedArticle :=
  shuffled.take page_size

/-! ### category_mappings.py and main.py -/

/-- `MAIN_CATEGORIES.values()` (category_mappings.py lines 14-20). -/
def MAIN_CATEGORIES : List String :=
  ["tech", "business", "politics", "entertainment", "sport"]

/-- `SUBCATEGORY_MAPPINGS` (lines 87-148).  The Python dict literal lists
the key `"gaming"` twice (once under tech, once under entertainment); the
later literal entry wins, so the resulting dict maps it to
`"entertainment"`. -/
def SUBCATEGORY_MAPPINGS : List (String × String) :=
  [("Artificial Intelligence", "tech"), ("Computing", "tech"), ("software", "tech"),
   ("hardware", "tech"), ("internet", "tech"), ("mobile", "tech"),
   ("cybersecurity", "tech"), ("robotics", "tech"), ("startups", "tech"),
   ("finance", "business"), ("markets", "business"), ("economy", "business"),
   ("investing", "business"), ("companies", "business"), ("trade", "business"),
   ("employment", "business"), ("real_estate", "business"),
   ("cryptocurrency", "business"), ("energy", "business"),
   ("government", "politics"), ("elections", "politics"), ("policy", "politics"),
   ("international", "politics"), ("diplomacy", "politics"),
   ("legislation", "politics"), ("political_parties", "politics"),
   ("public_affairs", "politics"), ("security", "politics"),
   ("immigration", "politics"),
   ("movies", "entertainment"), ("music", "entertainment"),
   ("television", "entertainment"), ("celebrity", "entertainment"),
   ("arts", "entertainment"), ("gaming", "entertainment"),
   ("theater", "entertainment"), ("fashion", "entertainment"),
   ("books", "entertainment"), ("streaming", "entertainment"),
   ("football", "sport"), ("basketball", "sport"), ("tennis", "sport"),
   ("golf", "sport"), ("olympics", "sport"), ("cricket", "sport"),
   ("rugby", "sport"), ("athletics", "sport"), ("soccer", "sport"),
   ("baseball", "sport"), ("mma", "sport")]

/-- `get_main_category` (category_mappings.py lines 391-407). -/
def get_main_category (category : String) : String :=
  if category ∈ MAIN_CATEGORIES then category
  else
    match lookupA SUBCATEGORY_MAPPINGS category with
    | some m => m
    | none => "other"

/-- `validate_category` (lines 428-432). -/
def validate_category (category : String) : Bool :=
  decide (category ∈ MAIN_CATEGORIES)

/-- `map_to_main_category` (lines 440-444). -/
def map_to_main_category (category : String) : String :=
  get_main_category category

/-- The label-handling step of `fetch_and_classify_articles` (main.py
lines 142-146): when the request carries a category filter, an invalid
predicted label raises `HTTPException(400, "Invalid category")` and a
valid one is mapped to its main category; with no filter the raw label is
used unchanged. -/
def classifyLabelStep (requestCategory : Option String) (predicted_label : String) :
    Except String String :=
  match requestCategory with
  | none => Except.ok predicted_label
  | some _ =>
    if validate_category predicted_label = false then Except.error "Invalid category"
    else Except.ok (map_to_main_category predicted_label)

/-! ### Helper lemmas -/

theorem upd_mem_read (s : UserPreferences) (c : String) (f : ℚ) (aid : String) (t : ℤ) :
    aid ∈ (update_preferences s c f aid t).read_articles := by
  by_cases h : aid ∈ s.read_articles
  · simp [update_preferences, h]
  · simp [update_preferences, h]

theorem sourceCount_bump (sd : List (String × ℕ)) (src s : String) :
    sourceCount (bumpSource sd src) s =
      sourceCount sd s + (if src = s then 1 else 0) := by
  induction sd with
  | nil => by_cases h : src = s <;> simp [bumpSource, sourceCount, lookupA, h]
  | cons p rest ih =>
      obtain ⟨k, n⟩ := p
      by_cases hk : k = src
      · subst hk
        by_cases hs : k = s <;> simp [bumpSource, sourceCount, lookupA, hs]
      · by_cases hs : k = s
        · subst hs
          have hns : src ≠ k := fun hh => hk hh.symm
          simp [bumpSource, sourceCount, lookupA, hk, hns]
        · simpa [bumpSource, sourceCount, lookupA, hk, hs] using ih

theorem update_vectors_sd (sys : RecommendationSystem) :
    (update_vectors sys).source_diversity = sys.source_diversity := by
  unfold update_vectors
  split_ifs <;> rfl

theorem add_article_sd (sys : RecommendationSystem) (a : Article) :
    (add_article sys a).source_diversity = bumpSource sys.source_diversity a.source := by
  simp only [add_article, update_vectors_sd]
  split_ifs <;> rfl

theorem applyAdds_go_sd (L : List Article) (sys : RecommendationSystem) (s : String) :
    sourceCount (L.foldl add_article sys).source_diversity s =
      sourceCount sys.source_diversity s + (L.map Article.source).count s := by
  induction L generalizing sys with
  | nil => simp
  | cons a L ih =>
      rw [List.foldl_cons, ih (add_article sys a), add_article_sd, sourceCount_bump,
        List.map_cons, List.count_cons]
      by_cases h : a.source = s
      · subst h; simp; omega
      · have hns : s ≠ a.source := fun hh => h hh.symm
        simp [h, hns]

/-! ### Claim C6 -/

/-- C6: calling `update_preferences` twice with the same `article_id`
changes the tracker state only once — the second call (with any category,
confidence and instant) returns the state produced by the first call
unchanged. -/
theorem C6_idempotent_update (s : UserPreferences) (c1 c2 : String) (f1 f2 : ℚ)
    (aid : String) (t1 t2 : ℤ) :
    update_preferences (update_preferences s c1 f1 aid t1) c2 f2 aid t2 =
      update_preferences s c1 f1 aid t1 := by
  set s1 := update_preferences s c1 f1 aid t1 with hs1
  have h : aid ∈ s1.read_articles := hs1 ▸ upd_mem_read s c1 f1 aid t1
  simp [update_preferences, h]

/-! ### Claim C10 -/

/-- C10: `source_diversity` counts every `add_article` call for the
article's source; eviction never decrements it, so for every replayed
sequence of adds the counter equals the all-time number of ingested
articles of that source, not the number currently stored. -/
theorem C10_source_diversity_alltime :
    (∀ (sys : RecommendationSystem) (a : Article) (s : String),
        sourceCount (add_article sys a).source_diversity s =
          sourceCount sys.source_diversity s + (if a.source = s then 1 else 0)) ∧
    (∀ (L : List Article) (s : String),
        sourceCount (applyAdds L).source_diversity s =
          (L.map Article.source).count s) := by
  constructor
  · intro sys a s
    rw [add_article_sd, sourceCount_bump]
  · intro L s
    simpa [applyAdds, initSystem, sourceCount, lookupA] using applyAdds_go_sd L initSystem s

/-! ### Claim C5 -/

/-- C5 counterexample: with a category filter in the request, a predicted
label outside the taxonomy makes `fetch_and_classify_articles` raise
`HTTPException(400, "Invalid category")` instead of normalizing the label
to `"other"`. -/
theorem C5_counterexample :
    classifyLabelStep (some "tech") "astrology" = Except.error "Invalid category" := by
  rfl

/-- C5 amended: `get_main_category` does map any label outside the known
taxonomy to the sentinel `"other"`; but in `fetch_and_classify_articles`
such a label is stored raw (un-normalized) when the request has no
category filter, and raises HTTP 400 to the caller when it has one. -/
theorem C5_amended_unknown_label (label : String)
    (hmain : label ∉ MAIN_CATEGORIES)
    (hsub : lookupA SUBCATEGORY_MAPPINGS label = none) :
    get_main_category label = "other" ∧
    classifyLabelStep none label = Except.ok label ∧
    ∀ c : String, classifyLabelStep (some c) label = Except.error "Invalid category" := by
  refine ⟨?_, rfl, ?_⟩
  · simp [get_main_category, hmain, hsub]
  · intro c
    simp [classifyLabelStep, validate_category, hmain]

/-- C5 witness: the amended statement evaluated at the unknown label
`"astrology"`. -/
theorem C5_witness :
    ("astrology" ∉ MAIN_CATEGORIES ∧
        lookupA SUBCATEGORY_MAPPINGS "astrology" = none) ∧
      get_main_category "astrology" = "other" :=
  ⟨⟨by decide, by decide⟩,
    (C5_amended_unknown_label "astrology" (by decide) (by decide)).1⟩

/-! ### Greedy selection lemmas -/

theorem diversePick_sublist (num : ℕ) :
    ∀ (cands : List Article) (cnt : ℕ) (seen : List String),
      List.Sublist (diversePick num cands cnt seen) cands := by
  intro cands
  induction cands with
  | nil => intro cnt seen; simp [diversePick]
  | cons a rest ih =>
      intro cnt seen
      simp only [diversePick]
      split
      · exact List.nil_sublist _
      · split
        · exact (ih cnt seen).cons a
        · exact (ih (cnt + 1) (insertSource a.source seen)).cons₂ a

theorem diversePick_greedyOk (num : ℕ) :
    ∀ (cands : List Article) (cnt : ℕ) (seen : List String),
      GreedyOkFrom num seen (diversePick num cands cnt seen) := by
  intro cands
  induction cands with
  | nil => intro cnt seen; simp [diversePick, GreedyOkFrom]
  | cons a rest ih =>
      intro cnt seen
      simp only [diversePick]
      split
      · simp [GreedyOkFrom]
      · split
        · exact ih cnt seen
        · rename_i hbreak hrej
          simp only [GreedyOkFrom]
          refine ⟨?_, ih (cnt + 1) (insertSource a.source seen)⟩
          by_cases hmem : a.source ∈ seen
          · right
            by_cases hlen : seen.length < num / 2
            · exact absurd ⟨hmem, hlen⟩ hrej
            · omega
          · left; exact hmem

theorem diversePick_top_ne_nil (num : ℕ) (a : Article) (rest : List Article)
    (hnum : 1 ≤ num) : diversePick num (a :: rest) 0 [] ≠ [] := by
  simp only [diversePick]
  rw [if_neg (by omega)]
  rw [if_neg (by simp)]
  simp

theorem get_diverse_recent_ne_nil (sys : RecommendationSystem) (num : ℕ)
    (hne : sys.articles ≠ []) (hnum : 1 ≤ num) :
    get_diverse_recent_articles sys num ≠ [] := by
  unfold get_diverse_recent_articles
  cases h : List.insertionSort pubDesc sys.articles with
  | nil =>
      exfalso
      have hlen := (List.perm_insertionSort pubDesc sys.articles).length_eq
      rw [h] at hlen
      exact hne (List.length_eq_zero.mp hlen.symm)
  | cons a rest =>
      exact diversePick_top_ne_nil num a rest hnum

theorem get_diverse_recent_sorted (sys : RecommendationSystem) (num : ℕ) :
    (get_diverse_recent_articles sys num).Pairwise pubDesc :=
  (List.sorted_insertionSort pubDesc sys.articles).sublist
    (diversePick_sublist num (List.insertionSort pubDesc sys.articles) 0 [])

/-! ### Concrete articles and systems used by the recommendation claims -/

/-- A fixed reference instant standing for `datetime.now`. -/
def NOW : ℤ := 1700000000

/-- Scenario article A: source X, published now. -/
def artA : Article :=
  ⟨"idA", "Alpha", "textA", "tech", "", 1, "X", "http://a", NOW, false⟩

/-- Scenario article B: source X, published two days ago. -/
def artB : Article :=
  ⟨"idB", "Beta", "textB", "tech", "", 1, "X", "http://b", NOW - 172800, false⟩

/-- Scenario article C: source Y, published now. -/
def artC : Article :=
  ⟨"idC", "Gamma", "textC", "business", "", 1, "Y", "http://c", NOW, false⟩

/-- A placeholder composite score (its value is irrelevant on the
diverse-recent paths exercised below). -/
def zeroScore : Article → ℚ := fun _ => 0

/-- The spec's three-article scenario store, built by three `add_article`
calls. -/
def scenarioSys : RecommendationSystem := applyAdds [artA, artB, artC]

/-- Counterexample store: two articles of source X newer than the single
article of source Y. -/
def artX1 : Article :=
  ⟨"x1", "T1", "c1", "tech", "", 1, "X", "http://x1", NOW, false⟩

/-- Second, older X article of the counterexample store. -/
def artX2 : Article :=
  ⟨"x2", "T2", "c2", "tech", "", 1, "X", "http://x2", NOW - 86400, false⟩

/-- The lone Y article of the counterexample store, oldest of the three. -/
def artY1 : Article :=
  ⟨"y1", "T3", "c3", "tech", "", 1, "Y", "http://y1", NOW - 172800, false⟩

/-- Store on which the claimed per-source cap fails. -/
def capSys : RecommendationSystem := applyAdds [artX1, artX2, artY1]

/-! ### Claim C1 -/

/-- C1 counterexample: for the reachable store `capSys` (sources X, X, Y by
recency) a new user's `get_recommendations(user, 2)` returns two articles
of source X — the source appears twice, exceeding the claimed cap
`⌈2/2⌉ = 1`, although two distinct sources exist among the candidates. -/
theorem C1_counterexample :
    (get_recommendations capSys zeroScore "newuser2" 2).map Article.source = ["X", "X"] ∧
    "Y" ∈ capSys.articles.map Article.source := by
  constructor
  · decide
  · decide

/-- C1 amended: the greedy selection used by both recommendation paths
only enforces that each selected article either brings a source new among
the articles selected so far or is taken once at least `n // 2` distinct
sources have been selected (after which no per-source bound applies at
all); it is not a `⌈n/2⌉` per-source cap.  In the spec's concrete A/B/C
scenario the returned pair is still one article per source, `[A, C]`,
never both A and B. -/
theorem C1_amended_diversity :
    (∀ (num : ℕ) (cands : List Article),
        GreedyOkFrom num [] (diversePick num cands 0 [])) ∧
    (get_recommendations scenarioSys zeroScore "newuser" 2).map Article.article_id =
      ["idA", "idC"] ∧
    (get_recommendations scenarioSys zeroScore "newuser" 2).map Article.source =
      ["X", "Y"] := by
  refine ⟨fun num cands => diversePick_greedyOk num cands 0 [], ?_, ?_⟩
  · decide
  · decide

/-! ### Claim C9 -/

/-- C9: for a user with no recorded interactions and a non-empty store,
`get_recommendations` (through the diverse-recent path, whether or not
article vectors exist) returns a non-empty list sorted by
`published_datetime` descending; the embedded function is total, the
Python original additionally guards every branch with a fallback. -/
theorem C9_fallback_guarantee (sys : RecommendationSystem) (score : Article → ℚ)
    (uid : String) (num : ℕ) (hne : sys.articles ≠ [])
    (hnew : (userOf sys uid).read_articles = []) (hnum : 1 ≤ num) :
    get_recommendations sys score uid num ≠ [] ∧
    (get_recommendations sys score uid num).Pairwise pubDesc := by
  have hout : get_recommendations sys score uid num =
      get_diverse_recent_articles sys num := by
    simp only [get_recommendations, hnew]
    rw [if_neg hne]
    by_cases hv : sys.has_vectors = false
    · rw [if_pos hv]
    · rw [if_neg hv]
      simp
  rw [hout]
  exact ⟨get_diverse_recent_ne_nil sys num hne hnum, get_diverse_recent_sorted sys num⟩

/-- C9 witness: the guarantee evaluated on the one-article scenario store
for a brand-new user. -/
theorem C9_witness :
    (scenarioSys.articles ≠ [] ∧ (userOf scenarioSys "v").read_articles = []) ∧
      (get_recommendations scenarioSys zeroScore "v" 1 ≠ [] ∧
        (get_recommendations scenarioSys zeroScore "v" 1).Pairwise pubDesc) :=
  ⟨⟨by decide, by decide⟩,
    C9_fallback_guarantee scenarioSys zeroScore "v" 1 (by decide) (by decide) (le_refl 1)⟩

/-! ### Claim C2 -/

/-- An article with only blank text fields: its vector document is blank,
so adding it leaves `article_vectors` unset (`None`). -/
def blankArt : Article := ⟨"a0", "", "", "", "", 1, "s", "", 0, false⟩

/-- Reachable state: the blank article is added, then the user `"u"`
records it as read. -/
def readSys : RecommendationSystem :=
  update_user_preferences (applyAdds [blankArt]) "u" "news" 1 "a0" 0

/-- C2 counterexample: in the reachable state `readSys` the store's only
article was recorded as read by user `"u"`, `article_vectors` is unset, and
`get_recommendations` takes the diverse-recent fallback — which does not
filter read articles — returning exactly that already-seen article. -/
theorem C2_counterexample :
    get_recommendations readSys zeroScore "u" 1 = [blankArt] ∧
    blankArt.article_id ∈ (userOf readSys "u").read_articles := by
  constructor
  · decide
  · decide

/-- C2 amended: `get_recommendations` excludes previously recorded
articles on the scored ranking path; a recorded article can appear in the
result only when the call returns one of the diverse-recent fallback
outputs (those do not filter read articles, as the counterexample
shows). -/
theorem C2_amended_exclusion (sys : RecommendationSystem) (score : Article → ℚ)
    (uid : String) (num : ℕ) (a : Article)
    (hmem : a ∈ get_recommendations sys score uid num)
    (hread : a.article_id ∈ (userOf sys uid).read_articles) :
    get_recommendations sys score uid num = get_diverse_recent_articles sys num := by
  by_cases h0 : sys.articles = []
  · simp only [get_recommendations] at hmem
    rw [if_pos h0] at hmem
    simp at hmem
  by_cases hv : sys.has_vectors = false
  · simp only [get_recommendations]
    rw [if_neg h0, if_pos hv]
  by_cases hr : (userOf sys uid).read_articles = []
  · rw [hr] at hread
    simp at hread
  by_cases hrv : sys.articles.filter
      (fun a => decide (a.article_id ∈ (userOf sys uid).read_articles) && a.vec) = []
  · simp only [get_recommendations]
    rw [if_neg h0, if_neg hv, if_neg hr, if_pos hrv]
  by_cases hsc : (sys.articles.filter
      (fun a => decide (a.article_id ∉ (userOf sys uid).read_articles) && a.vec)).map
        (fun a => (a, score a)) = []
  · simp only [get_recommendations]
    rw [if_neg h0, if_neg hv, if_neg hr, if_neg hrv, if_pos hsc]
  · exfalso
    have hout : get_recommendations sys score uid num =
        diversePick num
          ((List.insertionSort scoreDesc ((sys.articles.filter
            (fun a => decide (a.article_id ∉ (userOf sys uid).read_articles) && a.vec)).map
              (fun a => (a, score a)))).map Prod.fst) 0 [] := by
      simp only [get_recommendations]
      rw [if_neg h0, if_neg hv, if_neg hr, if_neg hrv, if_neg hsc]
    rw [hout] at hmem
    have h1 : a ∈ (List.insertionSort scoreDesc ((sys.articles.filter
        (fun a => decide (a.article_id ∉ (userOf sys uid).read_articles) && a.vec)).map
          (fun a => (a, score a)))).map Prod.fst :=
      (diversePick_sublist num _ 0 []).subset hmem
    obtain ⟨p, hp, hpa⟩ := List.mem_map.mp h1
    have hp2 : p ∈ (sys.articles.filter
        (fun a => decide (a.article_id ∉ (userOf sys uid).read_articles) && a.vec)).map
          (fun a => (a, score a)) :=
      (List.perm_insertionSort scoreDesc _).mem_iff.mp hp
    obtain ⟨b, hb, hbp⟩ := List.mem_map.mp hp2
    have hba : b = a := by
      rw [← hpa, ← hbp]
    subst hba
    have hfb := List.of_mem_filter hb
    simp only [Bool.and_eq_true, decide_eq_true_eq] at hfb
    exact hfb.1 hread

/-- C2 witness: the amended statement applied at the counterexample state,
where the returned article is recorded as read and the output is indeed
the diverse-recent fallback output. -/
theorem C2_witness :
    (blankArt ∈ get_recommendations readSys zeroScore "u" 1 ∧
        blankArt.article_id ∈ (userOf readSys "u").read_articles) ∧
      get_recommendations readSys zeroScore "u" 1 =
        get_diverse_recent_articles readSys 1 :=
  ⟨⟨by decide, by decide⟩,
    C2_amended_exclusion readSys zeroScore "u" 1 blankArt (by decide) (by decide)⟩

/-! ### Claim C3 -/

/-- First duplicate-URL entry (arriving from one feed). -/
def entryU1 : Entry := ⟨"Title1", "http://dup", "content one", "d1", "SrcA"⟩

/-- Second entry with the same URL (arriving from another feed). -/
def entryU2 : Entry := ⟨"Title2", "http://dup", "content two", "d2", "SrcB"⟩

/-- The flattened pool of the two one-entry feeds (also serving as the
identity outcome of the shuffle). -/
def dupPool : List FeedArticle := rssPool "tech" [[entryU1], [entryU2]]

/-- C3 counterexample: `_fetch_articles_from_rss` performs no URL
deduplication — two feeds contributing the same URL both survive into the
returned batch (shown for the identity shuffle outcome, an admissible
result of `random.shuffle`). -/
theorem C3_counterexample :
    dupPool.Perm (rssPool "tech" [[entryU1], [entryU2]]) ∧
    (fetch_articles_from_rss dupPool 2 (fun _ => none)).map FeedArticle.url =
      ["http://dup", "http://dup"] ∧
    ¬ ((fetch_articles_from_rss dupPool 2 (fun _ => none)).map FeedArticle.url).Nodup := by
  refine ⟨List.Perm.refl _, by decide, by decide⟩

theorem processEntriesTH_seen_mono :
    ∀ (es : List Entry) (seen : List String) (u : String),
      u ∈ seen → u ∈ (processEntriesTH es seen).2 := by
  intro es
  induction es with
  | nil =>
      intro seen u hu
      simpa [processEntriesTH] using hu
  | cons e es ih =>
      intro seen u hu
      simp only [processEntriesTH]
      split
      · exact ih seen u hu
      · split
        · exact ih (e.link :: seen) u (List.mem_cons_of_mem _ hu)
        · exact ih (e.link :: seen) u (List.mem_cons_of_mem _ hu)

theorem processEntriesTH_urls :
    ∀ (es : List Entry) (seen : List String),
      ((processEntriesTH es seen).1.map FeedArticle.url).Nodup ∧
      (∀ a ∈ (processEntriesTH es seen).1, a.url ∉ seen) ∧
      (∀ a ∈ (processEntriesTH es seen).1, a.url ∈ (processEntriesTH es seen).2) := by
  intro es
  induction es with
  | nil => intro seen; simp [processEntriesTH]
  | cons e es ih =>
      intro seen
      simp only [processEntriesTH]
      split
      · exact ih seen
      · rename_i hskip
        split
        · obtain ⟨ihn, ihns, ihin⟩ := ih (e.link :: seen)
          have hlink : e.link ∉ seen := by
            intro hl
            exact hskip (Or.inr hl)
          refine ⟨?_, ?_, ?_⟩
          · simp only [List.map_cons]
            refine List.nodup_cons.mpr ⟨?_, ihn⟩
            intro hmem
            obtain ⟨b, hb, hbu⟩ := List.mem_map.mp hmem
            exact (ihns b hb) (by rw [hbu]; exact List.mem_cons_self _ _)
          · intro a ha
            rcases List.mem_cons.mp ha with rfl | ha2
            · exact hlink
            · intro hsin
              exact (ihns a ha2) (List.mem_cons_of_mem _ hsin)
          · intro a ha
            rcases List.mem_cons.mp ha with rfl | ha2
            · exact processEntriesTH_seen_mono es (e.link :: seen) _
                (List.mem_cons_self _ _)
            · exact ihin a ha2
        · obtain ⟨ihn, ihns, ihin⟩ := ih (e.link :: seen)
          exact ⟨ihn, fun a ha hsin => ihns a ha (List.mem_cons_of_mem _ hsin), ihin⟩

theorem collectHeadlines_urls :
    ∀ (feeds : List (List Entry)) (seen : List String),
      ((collectHeadlines feeds seen).map FeedArticle.url).Nodup ∧
      (∀ a ∈ collectHeadlines feeds seen, a.url ∉ seen) := by
  intro feeds
  induction feeds with
  | nil => intro seen; simp [collectHeadlines]
  | cons f fs ih =>
      intro seen
      obtain ⟨hn1, hns1, hin1⟩ := processEntriesTH_urls (f.take 3) seen
      obtain ⟨hn2, hns2⟩ := ih (processEntriesTH (f.take 3) seen).2
      simp only [collectHeadlines]
      constructor
      · rw [List.map_append]
        refine List.Nodup.append hn1 hn2 ?_
        intro u hu1 hu2
        obtain ⟨a, ha, rfl⟩ := List.mem_map.mp hu1
        obtain ⟨b, hb, hba⟩ := List.mem_map.mp hu2
        exact hns2 b hb (hba ▸ hin1 a ha)
      · intro a ha
        rcases List.mem_append.mp ha with h | h
        · exact hns1 a h
        · intro hmem
          exact hns2 a h (processEntriesTH_seen_mono (f.take 3) seen _ hmem)

theorem process_article_url (f : String → Option Extracted) (a : FeedArticle) :
    (process_article f a).url = a.url := by
  simp only [process_article]
  split
  · rfl
  · split <;> (split <;> rfl)

/-- C3 amended: URL deduplication (shared `seen_urls`, first occurrence
wins) is performed only by `fetch_top_headlines`: its returned batch never
contains two articles with the same URL, for every feed completion order,
every extraction outcome and every sort/shuffle permutation.
`_fetch_articles_from_rss` / `fetch_articles` perform no URL
deduplication (see the counterexample). -/
theorem C3_amended_dedup (feeds : List (List Entry))
    (extractF : String → Option Extracted) (shuffled : List FeedArticle)
    (page_size : ℕ)
    (hperm : shuffled.Perm ((collectHeadlines feeds []).map (process_article extractF))) :
    ((fetch_top_headlines shuffled page_size).map FeedArticle.url).Nodup := by
  have h0 : ((collectHeadlines feeds []).map FeedArticle.url).Nodup :=
    (collectHeadlines_urls feeds []).1
  have h1 : (((collectHeadlines feeds []).map (process_article extractF)).map
      FeedArticle.url).Nodup := by
    rw [List.map_map]
    have hcomp : (FeedArticle.url ∘ process_article extractF) = FeedArticle.url :=
      funext (process_article_url extractF)
    rw [hcomp]
    exact h0
  have h2 : (shuffled.map FeedArticle.url).Nodup :=
    ((hperm.map FeedArticle.url).nodup_iff).mpr h1
  exact List.Nodup.sublist ((List.take_sublist page_size shuffled).map FeedArticle.url) h2

/-- C3 witness: the amended dedup guarantee evaluated on a one-feed
headline batch with the identity permutation. -/
theorem C3_witness :
    (((collectHeadlines [[entryU1]] []).map (process_article (fun _ => none))).Perm
        ((collectHeadlines [[entryU1]] []).map (process_article (fun _ => none)))) ∧
      ((fetch_top_headlines
          ((collectHeadlines [[entryU1]] []).map (process_article (fun _ => none)))
          10).map FeedArticle.url).Nodup :=
  ⟨List.Perm.refl _,
    C3_amended_dedup [[entryU1]] (fun _ => none) _ 10 (List.Perm.refl _)⟩

/-! ### Claim C8 -/

/-- An already-enriched article entering the extraction phase. -/
def origArt : FeedArticle :=
  ⟨"id1", "T", "original full text", "S", "http://x", "", none, "tech"⟩

/-- An extractor that gracefully fails: it delivers a record with empty
content. -/
def emptyExtractor : String → Option Extracted := fun _ => some ⟨"T2", "", none, "d"⟩

/-- An extractor that succeeds with content strictly shorter than what the
article already holds. -/
def shortExtractor : String → Option Extracted := fun _ => some ⟨"T2", "[x]", none, "d"⟩

/-- C8 counterexample: `_extract_articles_parallel_async` (the second code
location the claim cites) violates the claim twice over — an empty
extraction discards the article from the batch instead of keeping it with
its original content, and a successful extraction overwrites the content
even when strictly shorter than what was already present. -/
theorem C8_counterexample :
    extract_articles_parallel emptyExtractor [origArt] = [] ∧
    (extract_articles_parallel shortExtractor [origArt]).map FeedArticle.content =
      ["[x]"] ∧
    "[x]".length < origArt.content.length := by
  refine ⟨by decide, by decide, by decide⟩

/-- C8 amended: in `_fetch_articles_from_rss` the claim holds — extraction
is applied exactly to the shuffled pool truncated to `page_size`, every
selected article stays in the batch (the phase is a length-preserving
map), the body replaces existing content only when strictly longer, and a
failed extraction leaves the article unchanged.  In
`_extract_articles_parallel_async` (the NewsAPI path) a failed or empty
extraction instead discards the article and a successful one overwrites
unconditionally (see the counterexample). -/
theorem C8_amended_extraction (extractF : String → Option Extracted)
    (shuffled : List FeedArticle) (page_size : ℕ) :
    fetch_articles_from_rss shuffled page_size extractF =
      (shuffled.take page_size).map (process_article extractF) ∧
    (fetch_articles_from_rss shuffled page_size extractF).length =
      min page_size shuffled.length ∧
    (∀ a : FeedArticle,
      (process_article extractF a).content = a.content ∨
        a.content.length < (process_article extractF a).content.length) ∧
    (∀ a : FeedArticle, extractF a.url = none → process_article extractF a = a) := by
  refine ⟨rfl, by simp [fetch_articles_from_rss], ?_, ?_⟩
  · intro a
    simp only [process_article]
    split
    · left; rfl
    · rename_i ex heq
      by_cases hc : ex.content ≠ "" ∧ a.content.length < ex.content.length
      · right
        cases him : ex.image_url <;> simp [hc]
      · left
        cases him : ex.image_url <;> simp [hc]
  · intro a ha
    simp [process_article, ha]

/-- C8 witness: the replace-or-keep and failure-identity facts evaluated
at a concrete article with a failing extractor. -/
theorem C8_witness :
    ((fun _ => (none : Option Extracted)) origArt.url = none) ∧
      process_article (fun _ => none) origArt = origArt :=
  ⟨rfl, (C8_amended_extraction (fun _ => none) [] 0).2.2.2 origArt rfl⟩

/-! ### Claim C4 -/

theorem length_filter_partition {α : Type} (l : List α) (p : α → Bool) :
    (l.filter p).length + (l.filter (fun a => !(p a))).length = l.length := by
  induction l with
  | nil => rfl
  | cons a l ih =>
      by_cases h : p a = true <;> simp [List.filter_cons, h] <;> omega

theorem oldestBatch_subperm (l : List Article) : List.Subperm (oldestBatch l) l :=
  ((List.take_sublist 100 (List.insertionSort pubAsc l)).subperm).trans
    (List.perm_insertionSort pubAsc l).subperm

theorem oldestBatch_length (l : List Article) :
    (oldestBatch l).length = min 100 l.length := by
  simp [oldestBatch, List.length_take, List.length_insertionSort]

theorem evict_removed_ge (l : List Article) (hlen : 1000 ≤ l.length) :
    100 ≤ (l.filter
      (fun a => decide (a.article_id ∈ (oldestBatch l).map Article.article_id))).length := by
  have hself : (oldestBatch l).filter
      (fun a => decide (a.article_id ∈ (oldestBatch l).map Article.article_id)) =
        oldestBatch l := by
    refine List.filter_eq_self.mpr ?_
    intro a ha
    simp only [decide_eq_true_eq]
    exact List.mem_map_of_mem Article.article_id ha
  have h2 := (oldestBatch_subperm l).filter
    (fun a => decide (a.article_id ∈ (oldestBatch l).map Article.article_id))
  rw [hself] at h2
  have h3 := h2.length_le
  have h4 : (oldestBatch l).length = 100 := by
    rw [oldestBatch_length]
    exact Nat.min_eq_left (by omega)
  omega

theorem evictRemainder_length (l : List Article) (hlen : 1000 ≤ l.length) :
    (evictRemainder l).length ≤ l.length - 100 := by
  have hpart := length_filter_partition l
    (fun a => decide (a.article_id ∈ (oldestBatch l).map Article.article_id))
  have hge := evict_removed_ge l hlen
  have heq : evictRemainder l = l.filter
      (fun a => !(decide (a.article_id ∈ (oldestBatch l).map Article.article_id))) := by
    unfold evictRemainder
    congr 1
    funext a
    rw [decide_not]
  rw [heq]
  omega

theorem insertDict_length_le (l : List Article) (a : Article) :
    (insertDict l a).length ≤ l.length + 1 := by
  induction l with
  | nil => simp [insertDict]
  | cons b rest ih =>
      by_cases h : b.article_id = a.article_id
      · simp [insertDict, h]
      · simp only [insertDict, h, if_false, List.length_cons]
        omega

theorem update_vectors_length (sys : RecommendationSystem) :
    (update_vectors sys).articles.length = sys.articles.length := by
  unfold update_vectors
  split_ifs <;> simp

theorem add_article_bound (sys : RecommendationSystem) (a : Article)
    (h : sys.articles.length ≤ 1000) :
    (add_article sys a).articles.length ≤ 1000 := by
  simp only [add_article, update_vectors_length]
  split_ifs with hc
  · dsimp only
    have h1 := insertDict_length_le (evictRemainder sys.articles) a
    have h2 := evictRemainder_length sys.articles hc
    omega
  · have h1 := insertDict_length_le sys.articles a
    omega

theorem applyAdds_go_bound (L : List Article) (sys : RecommendationSystem)
    (h : sys.articles.length ≤ 1000) :
    (L.foldl add_article sys).articles.length ≤ 1000 := by
  induction L generalizing sys with
  | nil => simpa using h
  | cons a L ih => exact ih (add_article sys a) (add_article_bound sys a h)

theorem oldestBatch_le_remainder (l : List Article) (e k : Article)
    (he : e ∈ oldestBatch l) (hk : k ∈ evictRemainder l) :
    e.published ≤ k.published := by
  have hsorted : List.Pairwise pubAsc (List.insertionSort pubAsc l) :=
    List.sorted_insertionSort pubAsc l
  have hsplit := List.take_append_drop 100 (List.insertionSort pubAsc l)
  rw [← hsplit] at hsorted
  have hpa := (List.pairwise_append.mp hsorted).2.2
  unfold evictRemainder at hk
  obtain ⟨hk1, hk2⟩ := List.mem_filter.mp hk
  have hk3 : k.article_id ∉ (oldestBatch l).map Article.article_id :=
    of_decide_eq_true hk2
  have hk4 : k ∈ List.insertionSort pubAsc l :=
    (List.perm_insertionSort pubAsc l).mem_iff.mpr hk1
  rw [← hsplit] at hk4
  have he2 : e ∈ List.take 100 (List.insertionSort pubAsc l) := he
  rcases List.mem_append.mp hk4 with hkt | hkd
  · exact absurd (List.mem_map_of_mem Article.article_id hkt) hk3
  · exact hpa e he2 k hkd

/-- C4: after any sequence of `add_article` calls the store never holds
more than 1000 articles; the eviction batch is `min 100 size` articles (so
exactly 100 whenever the threshold `size ≥ 1000` that triggers eviction in
`add_article` is met), and every evicted article is at least as old by
`published_datetime` as every article kept. -/
theorem C4_cache_bound :
    (∀ L : List Article, (applyAdds L).articles.length ≤ 1000) ∧
    (∀ l : List Article, (oldestBatch l).length = min 100 l.length) ∧
    (∀ (l : List Article) (e k : Article),
        e ∈ oldestBatch l → k ∈ evictRemainder l → e.published ≤ k.published) :=
  ⟨fun L => applyAdds_go_bound L initSystem (by simp [initSystem]),
    fun l => oldestBatch_length l,
    fun l e k he hk => oldestBatch_le_remainder l e k he hk⟩

/-- A store article for the C4 witness, `published_datetime` set to `i`. -/
def mkOld (i : ℕ) : Article :=
  ⟨"old", "t", "c", "tech", "", 1, "S", "u", (i : ℤ), false⟩

/-- The freshest article of the C4 witness store. -/
def newestArt : Article := ⟨"new", "t", "c", "tech", "", 1, "S", "u", 1000, false⟩

/-- A 101-article store: one hundred old articles and one fresh one. -/
def evalStore : List Article := ((List.range 100).map mkOld) ++ [newestArt]

/-- C4 witness: on the concrete 101-article store, membership in the
eviction batch and in the remainder are discharged by evaluation and the
batch-is-older guarantee is applied. -/
theorem C4_witness :
    (mkOld 0 ∈ oldestBatch evalStore ∧ newestArt ∈ evictRemainder evalStore) ∧
      (mkOld 0).published ≤ newestArt.published :=
  ⟨⟨by decide, by decide⟩,
    C4_cache_bound.2.2 evalStore (mkOld 0) newestArt (by decide) (by decide)⟩

/-! ### Claim C7 -/

theorem lookupA_map_pair {β γ : Type} (l : List (String × β)) (g : String → β → γ)
    (c : String) :
    lookupA (l.map (fun p => (p.1, g p.1 p.2))) c = (lookupA l c).map (g c) := by
  induction l with
  | nil => rfl
  | cons p rest ih =>
      by_cases h : p.1 = c
      · simp [lookupA, h]
      · simp [lookupA, h, ih]

theorem lookupA_bumpPref_ne (l : List (String × PrefData)) (cat c : String) (conf : ℚ)
    (now : ℤ) (h : c ≠ cat) :
    lookupA (bumpPref l cat conf now) c = lookupA l c := by
  induction l with
  | nil => simp [bumpPref, lookupA, Ne.symm h]
  | cons p rest ih =>
      obtain ⟨k, d⟩ := p
      by_cases hk : k = cat
      · subst hk
        simp [bumpPref, lookupA, Ne.symm h]
      · by_cases hc : k = c <;> simp [bumpPref, lookupA, hk, hc, ih, h]

theorem totalInteractions_bump (l : List (String × PrefData)) (cat : String) (conf : ℚ)
    (now : ℤ) :
    totalInteractions (bumpPref l cat conf now) = totalInteractions l + 1 := by
  induction l with
  | nil => simp [bumpPref, totalInteractions]
  | cons p rest ih =>
      obtain ⟨k, d⟩ := p
      by_cases h : k = cat
      · subst h
        simp [bumpPref, totalInteractions]
        omega
      · simp only [bumpPref, h, if_false, totalInteractions, List.map_cons, List.sum_cons]
        have ih2 : ((bumpPref rest cat conf now).map (fun p => p.2.count)).sum =
            (rest.map (fun p => p.2.count)).sum + 1 := ih
        omega

theorem bumpPref_mem (l : List (String × PrefData)) (cat : String) (conf : ℚ) (now : ℤ) :
    ∀ p ∈ bumpPref l cat conf now, p ∈ l ∨ 0 < p.2.count := by
  induction l with
  | nil =>
      intro p hp
      have hp2 : p = (cat, ⟨1, conf, some now⟩) := by
        simpa [bumpPref] using hp
      rw [hp2]
      right
      simp
  | cons q rest ih =>
      obtain ⟨k, d⟩ := q
      intro p hp
      by_cases h : k = cat
      · subst h
        rw [show bumpPref ((k, d) :: rest) k conf now =
            (k, ⟨d.count + 1, d.total_confidence + conf, some now⟩) :: rest from by
          simp [bumpPref]] at hp
        rcases List.mem_cons.mp hp with h2 | h2
        · rw [h2]; right; simp
        · left; exact List.mem_cons_of_mem _ h2
      · rw [show bumpPref ((k, d) :: rest) cat conf now =
            (k, d) :: bumpPref rest cat conf now from by simp [bumpPref, h]] at hp
        rcases List.mem_cons.mp hp with h2 | h2
        · rw [h2]; left; exact List.mem_cons_self _ _
        · rcases ih p h2 with h3 | h3
          · left; exact List.mem_cons_of_mem _ h3
          · right; exact h3

theorem update_preferences_prefs (s : UserPreferences) (cat : String) (conf : ℚ)
    (aid : String) (now : ℤ) (h : aid ∉ s.read_articles) :
    (update_preferences s cat conf aid now).preferences =
      bumpPref s.preferences cat conf now := by
  simp [update_preferences, h]

theorem update_preferences_weights (s : UserPreferences) (cat : String) (conf : ℚ)
    (aid : String) (now : ℤ) (h : aid ∉ s.read_articles) :
    (update_preferences s cat conf aid now).category_weights =
      (bumpPref s.preferences cat conf now).map
        (fun p => (p.1, (p.2.count : ℚ) /
          (totalInteractions (bumpPref s.preferences cat conf now) : ℚ))) := by
  have ht : 0 < totalInteractions (bumpPref s.preferences cat conf now) := by
    rw [totalInteractions_bump]
    omega
  simp [update_preferences, h, ht]

/-- The invariant relating counts, weights and interaction instants on
every tracker state reachable by `update_preferences` calls. -/
def PrefInv (s : UserPreferences) : Prop :=
  (∀ p ∈ s.preferences, 0 < p.2.count) ∧
  (∀ c d, lookupA s.preferences c = some d →
      lookupA s.category_weights c =
        some ((d.count : ℚ) / (totalInteractions s.preferences : ℚ)))

theorem prefInv_update (s : UserPreferences) (cat : String) (conf : ℚ) (aid : String)
    (now : ℤ) (hs : PrefInv s) : PrefInv (update_preferences s cat conf aid now) := by
  by_cases hread : aid ∈ s.read_articles
  · simpa [update_preferences, hread] using hs
  · obtain ⟨h1, _h2⟩ := hs
    constructor
    · intro p hp
      rw [update_preferences_prefs s cat conf aid now hread] at hp
      rcases bumpPref_mem s.preferences cat conf now p hp with h | h
      · exact h1 p h
      · exact h
    · intro c d hd
      rw [update_preferences_prefs s cat conf aid now hread] at hd
      rw [update_preferences_weights s cat conf aid now hread,
        update_preferences_prefs s cat conf aid now hread]
      have hmap := lookupA_map_pair (bumpPref s.preferences cat conf now)
        (fun _k dd => (dd.count : ℚ) /
          (totalInteractions (bumpPref s.preferences cat conf now) : ℚ)) c
      rw [hmap, hd]
      rfl

theorem prefInv_applyUpdates (events : List PrefEvent) :
    PrefInv (applyUserUpdates events) := by
  suffices h : ∀ s, PrefInv s →
      PrefInv (events.foldl
        (fun s e => update_preferences s e.category e.confidence e.article_id e.time) s) by
    refine h initPrefs ⟨by simp [initPrefs], ?_⟩
    intro c d hd
    simp [initPrefs, lookupA] at hd
  induction events with
  | nil => intro s hs; simpa using hs
  | cons e es ih =>
      intro s hs
      exact ih (update_preferences s e.category e.confidence e.article_id e.time)
        (prefInv_update s e.category e.confidence e.article_id e.time hs)

theorem filterMap_ite_eq_map {α β : Type} (q : α → Prop) [DecidablePred q] (f : α → β) :
    ∀ l : List α, (∀ x ∈ l, q x) →
      l.filterMap (fun x => if q x then some (f x) else none) = l.map f := by
  intro l
  induction l with
  | nil => intro _; rfl
  | cons a l ih =>
      intro h
      rw [List.filterMap_cons, if_pos (h a (List.mem_cons_self a l)), List.map_cons,
        ih (fun x hx => h x (List.mem_cons_of_mem a hx))]

theorem get_average_eq_map (s : UserPreferences) (now : ℤ)
    (hpos : ∀ p ∈ s.preferences, 0 < p.2.count) :
    get_average_preferences s now = s.preferences.map (fun p => (p.1, prefValue s now p)) :=
  filterMap_ite_eq_map (fun p : String × PrefData => 0 < p.2.count)
    (fun p : String × PrefData => (p.1, prefValue s now p)) s.preferences hpos

/-- C7: on every tracker state reachable by a sequence of recorded
interactions, the weights map assigns to each category present in the
tracker (all of which have positive count) the value
`exp(-0.1 * days_since_last_interaction) * (cumulative_confidence / count)
* (count / total_interactions)` — the `category_weights.get(c, 1.0)`
read always resolves to the category's share of all interactions — and a
category never read is absent from the returned map. -/
theorem C7_weights_formula (events : List PrefEvent) (now : ℤ) (c : String) :
    (∀ d : PrefData,
      lookupA (applyUserUpdates events).preferences c = some d →
        lookupA (get_average_preferences (applyUserUpdates events) now) c =
          some (Real.exp (-(1 / 10) * (daysBetween d.last_interaction now : ℝ)) *
            ((d.total_confidence : ℝ) / (d.count : ℝ)) *
            ((d.count : ℝ) /
              (totalInteractions (applyUserUpdates events).preferences : ℝ)))) ∧
    (lookupA (applyUserUpdates events).preferences c = none →
      lookupA (get_average_preferences (applyUserUpdates events) now) c = none) := by
  obtain ⟨hpos, hw⟩ := prefInv_applyUpdates events
  have hmap := get_average_eq_map (applyUserUpdates events) now hpos
  have heta : (fun p : String × PrefData =>
      (p.1, prefValue (applyUserUpdates events) now p)) =
      (fun p : String × PrefData =>
        (p.1, prefValue (applyUserUpdates events) now (p.1, p.2))) := by
    funext p
    rfl
  have hlk := lookupA_map_pair (applyUserUpdates events).preferences
    (fun k dd => prefValue (applyUserUpdates events) now (k, dd)) c
  constructor
  · intro d hd
    rw [hmap, heta, hlk, hd]
    simp only [Option.map_some']
    congr 1
    unfold prefValue
    rw [hw c d hd]
    simp only [Option.getD_some]
    push_cast
    ring
  · intro hd
    rw [hmap, heta, hlk, hd]
    rfl

/-- A single recorded interaction used by the C7 witness. -/
def evTech : PrefEvent := ⟨"tech", 9 / 10, "a1", 0⟩

/-- C7 witness: the formula evaluated one day after a single tech read
with confidence 0.9. -/
theorem C7_witness :
    lookupA (applyUserUpdates [evTech]).preferences "tech" =
        some ⟨1, 9 / 10, some 0⟩ ∧
      lookupA (get_average_preferences (applyUserUpdates [evTech]) 86400) "tech" =
        some (Real.exp (-(1 / 10) * (daysBetween (some 0) 86400 : ℝ)) *
          (((9 / 10 : ℚ) : ℝ) / ((1 : ℕ) : ℝ)) *
          (((1 : ℕ) : ℝ) /
            (totalInteractions (applyUserUpdates [evTech]).preferences : ℝ))) :=
  ⟨by rfl,
    (C7_weights_formula [evTech] 86400 "tech").1 ⟨1, 9 / 10, some 0⟩ (by rfl)⟩

end SCR
